import Mathlib

/-!
Shallow embedding of the FastAPI-Catapult repository: the `cats` table
(src/app/models/cat.py), the pydantic schemas (src/app/schemas/cat.py), the
generic CRUD service `BaseServiceCrud` specialised to `CatService`
(src/app/services/base_service_crud.py, src/app/services/cat_service.py), and
the list route (src/app/main.py).

The database state visible to one session is modelled as the list of rows of
the single `cats` table, in insertion order (the store-native order in which a
plain `SELECT` yields them).  Machine-level effects are modelled explicitly:
`flush` applies pending statements to the store, auto-increment id assignment
follows the SQLite rowid rule (largest current id plus one, 1 on an empty
table), and constraint violations / library exceptions are `Except` errors.
-/

namespace Catapult

/-- A persisted row of the `cats` table: `id` integer primary key, `name`
non-null string, `age` non-null integer (src/app/models/cat.py). -/
structure Entity where
  id : Int
  name : String
  age : Int
  deriving Repr, DecidableEq

/-- The rows of the `cats` table, in store-native (insertion) order. -/
structure Store where
  rows : List Entity
  deriving Repr, DecidableEq

/-- Exceptions that the store or the libraries raise, as seen by the service
layer.  `integrityError` is a primary-key constraint violation (duplicate or
NULL id), `argumentError` is SQLAlchemy rejecting an UPDATE with an empty
values clause, `attributeError` is Python `getattr` failing on an unknown
attribute name, `unmappedInstance` is `Session.delete(None)` rejecting a
non-entity argument (the null-reference condition of `delete`). -/
inductive DBError where
  | integrityError
  | argumentError
  | attributeError
  | unmappedInstance
  deriving Repr, DecidableEq

/-- `CatCreateSchema` (src/app/schemas/cat.py): optional `id` defaulting to
`None`, required `name` and `age`.  Pydantic tracks which fields were
explicitly provided (`model_fields_set`); the `…Set` flags model that, since
`update` dumps with `exclude_unset=True`. -/
structure CatCreateSchema where
  id : Option Int
  idSet : Bool
  name : String
  nameSet : Bool
  age : Int
  ageSet : Bool
  deriving Repr, DecidableEq

/-- A pydantic-validated `CatCreateSchema` instance: the required fields
`name` and `age` are always in `model_fields_set` after validation, and an
unset `id` holds its declared default `None`. -/
def CatCreateSchema.Valid (c : CatCreateSchema) : Prop :=
  c.nameSet = true ∧ c.ageSet = true ∧ (c.idSet = false → c.id = none)

instance (c : CatCreateSchema) : Decidable c.Valid := by
  unfold CatCreateSchema.Valid; infer_instance

/-- `CatSchema` (src/app/schemas/cat.py): the full output schema, with a
mandatory `id`. -/
structure CatSchema where
  id : Int
  name : String
  age : Int
  deriving Repr, DecidableEq

/-- `schema.model_validate(m.__dict__)` applied to a present entity: the
1:1 structural projection of a row onto the full schema. -/
def fromEntity (e : Entity) : CatSchema :=
  ⟨e.id, e.name, e.age⟩

/-- `BaseServiceCrud.from_model`: `None` maps to `None` (`if not m`),
otherwise the entity's attributes are validated into the full schema. -/
def from_model : Option Entity → Option CatSchema
  | none => none
  | some e => some (fromEntity e)

/-- `BaseServiceCrud.from_models`: element-wise `from_model` over rows that a
query returned (each present). -/
def from_models (l : List Entity) : List CatSchema :=
  l.map fromEntity

/-- The id SQLite assigns to an INSERT whose id is NULL: one more than the
largest id currently in the table, or 1 when the table is empty. -/
def nextAutoId (s : Store) : Int :=
  match s.rows.map Entity.id with
  | [] => 1
  | x :: xs => xs.foldl max x + 1

/-- `db.add(db_item); db.flush()`: the INSERT hits the store.  An explicit id
that duplicates an existing row violates the primary-key constraint; a NULL
(`none`) id is auto-assigned.  The new row lands at the end of the table. -/
def insertRow (s : Store) (idv : Option Int) (nm : String) (ag : Int) :
    Except DBError (Store × Entity) :=
  match idv with
  | some i =>
    if s.rows.any (fun e => e.id == i) then .error .integrityError
    else .ok (⟨s.rows ++ [⟨i, nm, ag⟩]⟩, ⟨i, nm, ag⟩)
  | none =>
    let i := nextAutoId s
    .ok (⟨s.rows ++ [⟨i, nm, ag⟩]⟩, ⟨i, nm, ag⟩)

/-- `BaseServiceCrud.get_by_id`: `select(model).filter(id == id_in)`, first
row or `None`, through `from_model`. -/
def get_by_id (s : Store) (idIn : Int) : Option CatSchema :=
  from_model (s.rows.find? (fun e => e.id == idIn))

/-- `BaseServiceCrud.create`: `model(**schema.model_dump())` — the full dump,
so the schema's `id` field (set or not) is passed to the entity constructor —
then the no-op `_on_creation` hook, `add`, `flush`, and `from_model` of the
flushed entity (whose id is now populated). -/
def create (s : Store) (c : CatCreateSchema) : Except DBError (Store × CatSchema) :=
  match insertRow s c.id c.name c.age with
  | .ok (s2, e) => .ok (s2, fromEntity e)
  | .error err => .error err

/-- `schema.model_dump(exclude_unset=True)`: the values clause of `update`.
An outer `none` means the field is absent from the dump; `id` keeps its inner
option because an explicitly-set `id` may hold `None`. -/
structure UpdateVals where
  id : Option (Option Int)
  name : Option String
  age : Option Int
  deriving Repr, DecidableEq

def dumpExcludeUnset (c : CatCreateSchema) : UpdateVals :=
  ⟨if c.idSet then some c.id else none,
   if c.nameSet then some c.name else none,
   if c.ageSet then some c.age else none⟩

def UpdateVals.isEmpty (v : UpdateVals) : Bool :=
  v.id.isNone && v.name.isNone && v.age.isNone

/-- One row under the SET clause: each field present in the values dump is
overwritten, the rest keep their prior values.  Setting the primary key to
NULL violates its constraint (`none` result). -/
def setVals (v : UpdateVals) (e : Entity) : Option Entity :=
  match v.id with
  | some none => none
  | some (some i) => some ⟨i, v.name.getD e.name, v.age.getD e.age⟩
  | none => some ⟨e.id, v.name.getD e.name, v.age.getD e.age⟩

/-- `BaseServiceCrud.update`: `update(model).where(id == id_in).values(
**schema.model_dump(exclude_unset=True))`, executed and flushed.  An empty
values clause is rejected by the statement builder; the UPDATE applies the
SET clause to every row matching the WHERE clause (at most one under the pk
invariant, but the statement itself is row-count agnostic and raises nothing
when zero rows match); the store then enforces the primary-key constraint
(no NULL id, no duplicate ids).  No return value beyond success. -/
def update (s : Store) (idIn : Int) (c : CatCreateSchema) : Except DBError Store :=
  let v := dumpExcludeUnset c
  if v.isEmpty then .error .argumentError
  else
    match s.rows.mapM (fun e => if e.id == idIn then setVals v e else some e) with
    | none => .error .integrityError
    | some rows2 =>
      if (rows2.map Entity.id).Nodup then .ok ⟨rows2⟩ else .error .integrityError

/-- `BaseServiceCrud.crupdate`: `if self.get_by_id(id_in): update else create`
(a present schema is truthy, `None` is falsy); the `create` result value is
discarded. -/
def crupdate (s : Store) (idIn : Int) (c : CatCreateSchema) : Except DBError Store :=
  match get_by_id s idIn with
  | some _ => update s idIn c
  | none => (create s c).map Prod.fst

/-- `BaseServiceCrud.delete`: look the entity up by primary key, then
`db.delete(entity); db.flush()`, then `from_model(entity)` — the in-memory
snapshot of the now-deleted row.  When no row matches, the lookup yields
`None` and `Session.delete(None)` raises (null-reference condition). -/
def delete (s : Store) (idIn : Int) : Except DBError (Store × CatSchema) :=
  match s.rows.find? (fun e => e.id == idIn) with
  | none => .error .unmappedInstance
  | some e => .ok (⟨s.rows.filter (fun r => !(r.id == idIn))⟩, fromEntity e)

/-- `BaseServiceCrud.get_all`: `select(model)`, all rows in store-native
order, through `from_models`. -/
def get_all (s : Store) : List CatSchema :=
  from_models s.rows

/-- A Python value usable as the right-hand side of a filter keyword
argument (the cat columns hold integers and strings). -/
inductive PyVal where
  | vInt (i : Int)
  | vStr (s : String)
  deriving Repr, DecidableEq

/-- Python `==` between two values: equal only when of the same type with
equal payloads (an int never equals a string). -/
def PyVal.beq : PyVal → PyVal → Bool
  | .vInt a, .vInt b => a == b
  | .vStr a, .vStr b => a == b
  | _, _ => false

instance : BEq PyVal :=
  ⟨PyVal.beq⟩

instance : LawfulBEq PyVal := by
  constructor
  · intro a b h
    cases a <;> cases b <;> simp_all [BEq.beq, PyVal.beq]
  · intro a
    cases a <;> simp [BEq.beq, PyVal.beq]

/-- The three mapped columns of the `Cat` class. -/
inductive CatField where
  | fid
  | fname
  | fage
  deriving Repr, DecidableEq

/-- What `getattr(Cat, key)` yields: a mapped column attribute, or an
inherited non-column class attribute (a method or registry object — truthy,
so the `if not attr` guard never fires on it). -/
inductive CatAttr where
  | column (f : CatField)
  | nonColumn
  deriving Repr, DecidableEq

/-- `getattr(self.model, key)` for the `Cat` class: the three columns
resolve to their instrumented attributes; representative inherited
non-column attributes (`update` from `BaseModel`, `metadata` and `registry`
from the declarative base) resolve to plain truthy objects; other names
raise `AttributeError`.  (Further Python dunder attributes exist on any
class; they behave like the modelled non-column names.) -/
def getattrCat (key : String) : Option CatAttr :=
  if key == "id" then some (.column .fid)
  else if key == "name" then some (.column .fname)
  else if key == "age" then some (.column .fage)
  else if key == "update" || key == "metadata" || key == "registry" then some .nonColumn
  else none

/-- One WHERE conjunct of a built filter query: a column-equals-value
comparison, or the constant-false clause that `filter(False)` yields when a
non-column attribute is compared to a value (a plain Python `==` on a method
gives `False`, which SQLAlchemy coerces to the SQL false clause). -/
inductive QFilter where
  | colEq (f : CatField) (v : PyVal)
  | falseClause
  deriving Repr, DecidableEq

/-- `BaseServiceCrud.build_filter_query`: starting from `select(model)`, for
each `(key, value)` pair in order, resolve `getattr(self.model, key)`
(raising `AttributeError` on an unknown name — the explicit `if not attr`
re-raise is dead code, every resolved attribute being truthy) and add the
`attr == value` conjunct with `.filter(...)`. -/
def build_filter_query : List (String × PyVal) → Except DBError (List QFilter)
  | [] => .ok []
  | kv :: rest =>
    match getattrCat kv.1 with
    | none => .error .attributeError
    | some (.column f) => (build_filter_query rest).map (fun q => .colEq f kv.2 :: q)
    | some .nonColumn => (build_filter_query rest).map (fun q => .falseClause :: q)

/-- Whether a row satisfies one WHERE conjunct.  Comparing a column to a
value of the other type never matches (SQLite never equates an integer with
a text value under the cat columns' affinities). -/
def evalFilter (e : Entity) : QFilter → Bool
  | .colEq .fid (.vInt i) => e.id == i
  | .colEq .fname (.vStr s) => e.name == s
  | .colEq .fage (.vInt i) => e.age == i
  | .colEq _ _ => false
  | .falseClause => false

/-- Executing a built SELECT: the rows satisfying every WHERE conjunct, in
store-native order. -/
def runSelect (s : Store) (q : List QFilter) : List Entity :=
  s.rows.filter (fun e => q.all (evalFilter e))

/-- `BaseServiceCrud.find_all_by_filters`: build the filter query, execute,
map every returned row (`execute_and_get_all`). -/
def find_all_by_filters (s : Store) (kvs : List (String × PyVal)) :
    Except DBError (List CatSchema) :=
  (build_filter_query kvs).map (fun q => from_models (runSelect s q))

/-- `BaseServiceCrud.find_one_by_filters`: build the filter query, execute,
take the first returned row or `None` (`execute_and_get_one`). -/
def find_one_by_filters (s : Store) (kvs : List (String × PyVal)) :
    Except DBError (Option CatSchema) :=
  (build_filter_query kvs).map (fun q => from_model (runSelect s q).head?)

/-- CPython list slicing `xs[start : stop]` (step 1): negative endpoints
count from the end of the list, and both endpoints are clamped into
`[0, len(xs)]`. -/
def pythonSlice {α : Type} (xs : List α) (start stop : Int) : List α :=
  let n : Int := xs.length
  let a : Int := if start < 0 then max (start + n) 0 else min start n
  let b : Int := if stop < 0 then max (stop + n) 0 else min stop n
  (xs.take b.toNat).drop a.toNat

/-- `GET /cats` (src/app/main.py `get_all_cats`): fetch every cat and slice
the in-memory list as `cats[skip : skip + limit]`; `skip` and `limit` are
arbitrary integers, with no validation applied. -/
def get_all_cats (s : Store) (skip limit : Int) : List CatSchema :=
  pythonSlice (get_all s) skip (skip + limit)

/-- The spec's reading of one filter pair: "the entity whose field X equals
value V" — field `X` of the row holds exactly the value `V`.  Stated
independently of the query builder, to compare the built query against. -/
def entityFieldEq (e : Entity) (k : String) (v : PyVal) : Bool :=
  (k == "id" && PyVal.vInt e.id == v) ||
  (k == "name" && PyVal.vStr e.name == v) ||
  (k == "age" && PyVal.vInt e.age == v)

/-- The primary-key invariant of a real `cats` table: ids are unique. -/
def idsUnique (s : Store) : Prop :=
  (s.rows.map Entity.id).Nodup

instance (s : Store) : Decidable (idsUnique s) := by
  unfold idsUnique; infer_instance

instance {ε α : Type} [DecidableEq ε] [DecidableEq α] : DecidableEq (Except ε α) := by
  intro a b
  cases a with
  | error e1 =>
    cases b with
    | error e2 =>
      exact if h : e1 = e2 then isTrue (by rw [h])
        else isFalse (by intro hc; injection hc; contradiction)
    | ok v2 => exact isFalse (by intro h; exact Except.noConfusion h)
  | ok v1 =>
    cases b with
    | error e2 => exact isFalse (by intro h; exact Except.noConfusion h)
    | ok v2 =>
      exact if h : v1 = v2 then isTrue (by rw [h])
        else isFalse (by intro hc; injection hc; contradiction)

/-! Concrete fixtures used to instantiate the theorems. -/

/-- A small populated table. -/
def demoStore : Store :=
  ⟨[⟨1, "Tom", 3⟩, ⟨2, "Bob", 4⟩, ⟨3, "Tom", 5⟩]⟩

/-- A create schema as the POST body `{name: "Zed", age: 2}` validates: `id`
left at its default. -/
def schemaZed : CatCreateSchema :=
  ⟨none, false, "Zed", true, 2, true⟩

/-- A create schema with an explicitly supplied `id` of 5. -/
def schemaWithId5 : CatCreateSchema :=
  ⟨some 5, true, "Tom", true, 3, true⟩

/-- A create schema identical to `schemaWithId5` but with `id` unset. -/
def schemaNoId : CatCreateSchema :=
  ⟨none, false, "Tom", true, 3, true⟩

/-- A create schema that explicitly sets `id := 2` (used against row 1). -/
def schemaSetsId2 : CatCreateSchema :=
  ⟨some 2, true, "Tim", true, 7, true⟩

/-- A create schema as the body `{name: "Tim", age: 7}` validates. -/
def schemaTim7 : CatCreateSchema :=
  ⟨none, false, "Tim", true, 7, true⟩

/-! Helper lemmas. -/

@[simp] theorem PyVal.beq_vInt_vInt (a b : Int) :
    (PyVal.vInt a == PyVal.vInt b) = (a == b) := rfl

@[simp] theorem PyVal.beq_vInt_vStr (a : Int) (s : String) :
    (PyVal.vInt a == PyVal.vStr s) = false := rfl

@[simp] theorem PyVal.beq_vStr_vInt (s : String) (a : Int) :
    (PyVal.vStr s == PyVal.vInt a) = false := rfl

@[simp] theorem PyVal.beq_vStr_vStr (s t : String) :
    (PyVal.vStr s == PyVal.vStr t) = (s == t) := rfl

theorem le_foldl_max (xs : List Int) :
    ∀ (x y : Int), y ∈ x :: xs → y ≤ xs.foldl max x := by
  induction xs with
  | nil =>
    intro x y hy
    have h := List.mem_singleton.mp hy
    simp [h]
  | cons a t ih =>
    intro x y hy
    simp only [List.foldl_cons]
    have hhead : max x a ≤ t.foldl max (max x a) :=
      ih (max x a) (max x a) (List.mem_cons_self _ _)
    rcases List.mem_cons.mp hy with h | h
    · exact le_trans (h ▸ le_max_left x a) hhead
    · rcases List.mem_cons.mp h with h2 | h2
      · exact le_trans (h2 ▸ le_max_right x a) hhead
      · exact ih (max x a) y (List.mem_cons_of_mem _ h2)

theorem nextAutoId_not_mem (s : Store) : nextAutoId s ∉ s.rows.map Entity.id := by
  unfold nextAutoId
  rcases hl : s.rows.map Entity.id with _ | ⟨x, xs⟩
  · exact List.not_mem_nil _
  · show xs.foldl max x + 1 ∉ x :: xs
    intro hmem
    have := le_foldl_max xs x _ hmem
    omega

theorem insertRow_ok (s : Store) (idv : Option Int) (nm : String) (ag : Int)
    (s2 : Store) (e : Entity) (h : insertRow s idv nm ag = .ok (s2, e)) :
    s2.rows = s.rows ++ [e] ∧ e.name = nm ∧ e.age = ag ∧
      e.id ∉ s.rows.map Entity.id := by
  cases idv with
  | some i =>
    simp only [insertRow] at h
    by_cases hany : (s.rows.any (fun r => r.id == i)) = true
    · rw [if_pos hany] at h
      exact absurd h (by simp)
    · rw [if_neg hany] at h
      injection h with h
      injection h with h1 h2
      subst h1; subst h2
      refine ⟨rfl, rfl, rfl, ?_⟩
      intro hmem
      rcases List.mem_map.mp hmem with ⟨r, hr, hid⟩
      exact hany (List.any_eq_true.mpr ⟨r, hr, by simp [hid]⟩)
  | none =>
    simp only [insertRow] at h
    injection h with h
    injection h with h1 h2
    subst h1; subst h2
    exact ⟨rfl, rfl, rfl, nextAutoId_not_mem s⟩

theorem get_by_id_append_fresh (rows : List Entity) (e : Entity)
    (hfresh : e.id ∉ rows.map Entity.id) :
    get_by_id ⟨rows ++ [e]⟩ e.id = some (fromEntity e) := by
  unfold get_by_id from_model
  rw [List.find?_append]
  have hnone : rows.find? (fun r => r.id == e.id) = none := by
    rw [List.find?_eq_none]
    intro x hx hpx
    exact hfresh (by
      have : x.id = e.id := by simpa using hpx
      exact this ▸ List.mem_map_of_mem Entity.id hx)
  rw [hnone]
  simp

theorem nodup_replace_ids (ids : List Int) (idIn w : Int)
    (hnd : ids.Nodup) (hw : ∀ x ∈ ids, x ≠ idIn → x ≠ w) :
    (ids.map fun x => if x = idIn then w else x).Nodup := by
  induction ids with
  | nil => simp
  | cons a t ih =>
    rcases List.nodup_cons.mp hnd with ⟨ha, ht⟩
    simp only [List.map_cons]
    refine List.nodup_cons.mpr
      ⟨?_, ih ht (fun x hx => hw x (List.mem_cons_of_mem a hx))⟩
    intro hmem
    rcases List.mem_map.mp hmem with ⟨x, hx, heq⟩
    by_cases hax : a = idIn
    · by_cases hxi : x = idIn
      · have hxa : x = a := hxi.trans hax.symm
        exact ha (hxa ▸ hx)
      · rw [if_pos hax, if_neg hxi] at heq
        exact hw x (List.mem_cons_of_mem a hx) hxi heq
    · by_cases hxi : x = idIn
      · rw [if_neg hax, if_pos hxi] at heq
        exact hw a (List.mem_cons_self a t) hax heq.symm
      · rw [if_neg hax, if_neg hxi] at heq
        exact ha (heq ▸ hx)

theorem mapM_eq_map_of_forall_some {α β : Type} (f : α → Option β) (g : α → β) :
    ∀ (l : List α), (∀ a ∈ l, f a = some (g a)) → l.mapM f = some (l.map g) := by
  intro l
  induction l with
  | nil => intro _; rfl
  | cons a t ih =>
    intro h
    rw [List.mapM_cons, h a (List.mem_cons_self a t),
      ih (fun b hb => h b (List.mem_cons_of_mem a hb))]
    rfl

theorem dumpExcludeUnset_valid (c : CatCreateSchema)
    (hn : c.nameSet = true) (ha : c.ageSet = true) :
    dumpExcludeUnset c =
      ⟨if c.idSet then some c.id else none, some c.name, some c.age⟩ := by
  unfold dumpExcludeUnset
  rw [hn, ha]
  simp

theorem create_id_none (s : Store) (c : CatCreateSchema) (h : c.id = none) :
    create s c = .ok (⟨s.rows ++ [⟨nextAutoId s, c.name, c.age⟩]⟩,
      ⟨nextAutoId s, c.name, c.age⟩) := by
  simp only [create, insertRow, h]
  rfl

theorem create_id_some_fresh (s : Store) (c : CatCreateSchema) (v : Int)
    (h : c.id = some v) (hfresh : v ∉ s.rows.map Entity.id) :
    create s c = .ok (⟨s.rows ++ [⟨v, c.name, c.age⟩]⟩, ⟨v, c.name, c.age⟩) := by
  simp only [create, insertRow, h]
  have hany : ¬((s.rows.any fun e => e.id == v) = true) := by
    intro hc
    rcases List.any_eq_true.mp hc with ⟨r, hr, hbeq⟩
    have hrid : r.id = v := by simpa using hbeq
    exact hfresh (hrid ▸ List.mem_map_of_mem Entity.id hr)
  rw [if_neg hany]
  rfl

theorem create_id_some_dup (s : Store) (c : CatCreateSchema) (v : Int)
    (h : c.id = some v) (hdup : v ∈ s.rows.map Entity.id) :
    create s c = .error .integrityError := by
  simp only [create, insertRow, h]
  have hany : (s.rows.any fun e => e.id == v) = true := by
    rcases List.mem_map.mp hdup with ⟨r, hr, hrid⟩
    exact List.any_eq_true.mpr ⟨r, hr, by simp [hrid]⟩
  rw [if_pos hany]

theorem update_characterization (s : Store) (idIn : Int) (c : CatCreateSchema)
    (hn : c.nameSet = true) (ha : c.ageSet = true)
    (hnull : c.idSet = true → c.id ≠ none)
    (hcoll : ∀ v, c.idSet = true → c.id = some v →
      ∀ e ∈ s.rows, e.id ≠ idIn → e.id ≠ v)
    (hnd : idsUnique s) :
    update s idIn c = .ok ⟨s.rows.map (fun e =>
      if e.id = idIn then
        ⟨if c.idSet = true then c.id.getD e.id else e.id, c.name, c.age⟩
      else e)⟩ := by
  have hdump := dumpExcludeUnset_valid c hn ha
  simp only [update, hdump, UpdateVals.isEmpty, Option.isNone_some,
    Bool.and_false, Bool.false_and, Bool.false_eq_true, if_false]
  have hforall : ∀ e ∈ s.rows,
      (fun e => if e.id == idIn then
        setVals ⟨if c.idSet then some c.id else none, some c.name, some c.age⟩ e
        else some e) e =
      some ((fun e => if e.id = idIn then
        (⟨if c.idSet = true then c.id.getD e.id else e.id, c.name, c.age⟩ : Entity)
        else e) e) := by
    intro e _
    by_cases hm : e.id = idIn
    · by_cases hset : c.idSet = true
      · rcases hcid : c.id with _ | w
        · exact absurd hcid (hnull hset)
        · simp [hm, hset, hcid, setVals]
      · have hset2 : c.idSet = false := by
          cases hb : c.idSet
          · rfl
          · exact absurd hb hset
        simp [hm, hset2, setVals]
    · simp [hm]
  have hmap := mapM_eq_map_of_forall_some
    (fun e => if e.id == idIn then
      setVals ⟨if c.idSet then some c.id else none, some c.name, some c.age⟩ e
      else some e)
    (fun e => if e.id = idIn then
      ⟨if c.idSet = true then c.id.getD e.id else e.id, c.name, c.age⟩ else e)
    s.rows hforall
  rw [hmap]
  dsimp only
  have hnodup : (((s.rows.map (fun e =>
      if e.id = idIn then
        ⟨if c.idSet = true then c.id.getD e.id else e.id, c.name, c.age⟩
      else e))).map Entity.id).Nodup := by
    rw [List.map_map]
    by_cases hset : c.idSet = true
    · have hex : ∃ w, c.id = some w := Option.ne_none_iff_exists'.mp (hnull hset)
      rcases hex with ⟨w, hcid⟩
      · have hpt : ∀ e ∈ s.rows,
            (Entity.id ∘ fun e =>
              if e.id = idIn then
                (⟨if c.idSet = true then c.id.getD e.id else e.id, c.name, c.age⟩ : Entity)
              else e) e =
            ((fun x => if x = idIn then w else x) ∘ Entity.id) e := by
          intro e _
          by_cases hm : e.id = idIn
          · simp [Function.comp, hm, hset, hcid]
          · simp [Function.comp, hm]
        rw [List.map_congr_left hpt, ← List.map_map]
        refine nodup_replace_ids _ idIn w hnd ?_
        intro x hx hne
        rcases List.mem_map.mp hx with ⟨e, he, hxe⟩
        exact hxe ▸ hcoll w hset hcid e he (hxe ▸ hne)
    · have hpt : ∀ e ∈ s.rows,
          (Entity.id ∘ fun e =>
            if e.id = idIn then
              (⟨if c.idSet = true then c.id.getD e.id else e.id, c.name, c.age⟩ : Entity)
            else e) e = Entity.id e := by
        intro e _
        by_cases hm : e.id = idIn
        · simp [Function.comp, hm, hset]
        · simp [Function.comp, hm]
      rw [List.map_congr_left hpt]
      exact hnd
  rw [if_pos hnodup]

theorem update_ok_ids (s : Store) (idIn : Int) (c : CatCreateSchema)
    (hn : c.nameSet = true) (ha : c.ageSet = true) (hidset : c.idSet = false)
    (hnd : idsUnique s) (s2 : Store) (h : update s idIn c = .ok s2) :
    s2.rows.map Entity.id = s.rows.map Entity.id := by
  have hchar := update_characterization s idIn c hn ha
    (fun hc => absurd hc (by rw [hidset]; exact Bool.false_ne_true))
    (fun v hc _ _ _ _ => absurd hc (by rw [hidset]; exact Bool.false_ne_true))
    hnd
  rw [hchar] at h
  injection h with h
  subst h
  rw [List.map_map]
  have hpt : ∀ e ∈ s.rows,
      (Entity.id ∘ fun e =>
        if e.id = idIn then
          (⟨if c.idSet = true then c.id.getD e.id else e.id, c.name, c.age⟩ : Entity)
        else e) e = Entity.id e := by
    intro e _
    by_cases hm : e.id = idIn
    · simp [Function.comp, hm, hidset]
    · simp [Function.comp, hm]
  rw [List.map_congr_left hpt]

theorem create_ok_ids (s : Store) (c : CatCreateSchema) (s2 : Store)
    (out : CatSchema) (h : create s c = .ok (s2, out)) :
    s2.rows.map Entity.id = s.rows.map Entity.id ++ [out.id] ∧
      out.id ∉ s.rows.map Entity.id := by
  unfold create at h
  rcases hins : insertRow s c.id c.name c.age with err | ⟨s3, e⟩
  · rw [hins] at h; exact absurd h (by simp)
  · rw [hins] at h
    injection h with h
    injection h with h1 h2
    subst h1; subst h2
    rcases insertRow_ok s c.id c.name c.age s3 e hins with ⟨hrows, _, _, hfresh⟩
    rw [hrows]
    exact ⟨by simp [fromEntity], hfresh⟩

/-! The claims. -/

/-- C1: for every valid create input (one `create` accepts), `create`
followed by `get_by_id` on the id of the returned full schema yields that
same full schema, on the session state `create` left behind. -/
theorem C1_create_get_by_id_roundtrip (s : Store) (c : CatCreateSchema)
    (s2 : Store) (out : CatSchema) (h : create s c = .ok (s2, out)) :
    get_by_id s2 out.id = some out := by
  unfold create at h
  rcases hins : insertRow s c.id c.name c.age with err | ⟨s3, e⟩
  · rw [hins] at h; exact absurd h (by simp)
  · rw [hins] at h
    injection h with h
    injection h with h1 h2
    subst h1; subst h2
    rcases insertRow_ok s c.id c.name c.age s3 e hins with ⟨hrows, _, _, hfresh⟩
    have : get_by_id ⟨s.rows ++ [e]⟩ e.id = some (fromEntity e) :=
      get_by_id_append_fresh s.rows e hfresh
    rcases s3 with ⟨rows3⟩
    simp only at hrows
    subst hrows
    exact this

/-- C1 witness: creating `{name: "Zed", age: 2}` on the demo table succeeds
with id 4, and `get_by_id 4` returns the create result. -/
theorem C1_witness :
    create demoStore schemaZed = .ok (⟨demoStore.rows ++ [⟨4, "Zed", 2⟩]⟩, ⟨4, "Zed", 2⟩) ∧
    get_by_id ⟨demoStore.rows ++ [⟨4, "Zed", 2⟩]⟩ (4 : Int) = some ⟨4, "Zed", 2⟩ :=
  ⟨by decide,
   C1_create_get_by_id_roundtrip demoStore schemaZed
     ⟨demoStore.rows ++ [⟨4, "Zed", 2⟩]⟩ ⟨4, "Zed", 2⟩ (by decide)⟩

/-- C3: `crupdate(id, schema)` leaves the store exactly as `create(schema)`
does when no entity with primary key `id` exists, and exactly as
`update(id, schema)` does when one exists; the create/update result value is
discarded. -/
theorem C3_crupdate_refines_create_update (s : Store) (idIn : Int)
    (c : CatCreateSchema) :
    (get_by_id s idIn = none → crupdate s idIn c = (create s c).map Prod.fst) ∧
    (∀ f, get_by_id s idIn = some f → crupdate s idIn c = update s idIn c) := by
  constructor
  · intro h
    unfold crupdate
    rw [h]
  · intro f h
    unfold crupdate
    rw [h]

/-- C3 witness: on the demo table, `crupdate 9` (absent) acts as `create`,
and `crupdate 1` (present) acts as `update`. -/
theorem C3_witness :
    crupdate demoStore 9 schemaZed = (create demoStore schemaZed).map Prod.fst ∧
    crupdate demoStore 1 schemaZed = update demoStore 1 schemaZed :=
  ⟨(C3_crupdate_refines_create_update demoStore 9 schemaZed).1 (by decide),
   (C3_crupdate_refines_create_update demoStore 1 schemaZed).2
     ⟨1, "Tom", 3⟩ (by decide)⟩

/-- C4: when an entity with the given primary key exists, `delete` removes it
and returns its full-schema snapshot, and a subsequent `get_by_id` on the same
id is absent; when none exists, `delete` fails with the null-reference
condition (`Session.delete(None)`) instead of returning an absent result. -/
theorem C4_delete_semantics (s : Store) (idIn : Int) :
    (∀ f, get_by_id s idIn = some f →
      ∃ s2, delete s idIn = .ok (s2, f) ∧ get_by_id s2 idIn = none) ∧
    (get_by_id s idIn = none → delete s idIn = .error .unmappedInstance) := by
  constructor
  · intro f h
    unfold get_by_id from_model at h
    rcases hfind : s.rows.find? (fun e => e.id == idIn) with _ | e
    · rw [hfind] at h; exact absurd h (by simp)
    · rw [hfind] at h
      injection h with h
      subst h
      refine ⟨⟨s.rows.filter (fun r => !(r.id == idIn))⟩, ?_, ?_⟩
      · unfold delete
        rw [hfind]
      · unfold get_by_id from_model
        have hnone : (s.rows.filter (fun r => !(r.id == idIn))).find?
            (fun e => e.id == idIn) = none := by
          rw [List.find?_eq_none]
          intro x hx hpx
          have := List.of_mem_filter hx
          simp [hpx] at this
        rw [hnone]
  · intro h
    unfold get_by_id from_model at h
    rcases hfind : s.rows.find? (fun e => e.id == idIn) with _ | e
    · unfold delete
      rw [hfind]
    · rw [hfind] at h; exact absurd h (by simp)

/-- C4 witness: on the demo table, deleting id 2 returns its snapshot and
empties the lookup, and deleting absent id 9 raises. -/
theorem C4_witness :
    (∃ s2, delete demoStore 2 = .ok (s2, ⟨2, "Bob", 4⟩) ∧ get_by_id s2 2 = none) ∧
    delete demoStore 9 = .error .unmappedInstance :=
  ⟨(C4_delete_semantics demoStore 2).1 ⟨2, "Bob", 4⟩ (by decide),
   (C4_delete_semantics demoStore 9).2 (by decide)⟩

/-- C9: filtering with no (field, value) pairs places no restriction: it
returns exactly what `get_all` returns. -/
theorem C9_empty_filters_is_get_all (s : Store) :
    find_all_by_filters s [] = .ok (get_all s) := by
  unfold find_all_by_filters build_filter_query runSelect get_all
  simp [Except.map]

/-- C2: on a pk-consistent table, for any id and any validated create-schema
instance (whose explicitly-set id, if any, introduces no pk conflict),
`update` overwrites exactly the explicitly-set fields of every row matching
the id, leaves the unset fields of that row and all other rows unchanged, and
raises no error — in particular it succeeds and leaves the store untouched
when zero rows match. -/
theorem C2_update_partial_fields (s : Store) (idIn : Int) (c : CatCreateSchema)
    (hval : c.Valid) (hnd : idsUnique s)
    (hnull : c.idSet = true → c.id ≠ none)
    (hcoll : ∀ v, c.idSet = true → c.id = some v →
      ∀ e ∈ s.rows, e.id ≠ idIn → e.id ≠ v) :
    update s idIn c = .ok ⟨s.rows.map (fun e =>
      if e.id = idIn then
        ⟨if c.idSet = true then c.id.getD e.id else e.id, c.name, c.age⟩
      else e)⟩ ∧
    ((∀ e ∈ s.rows, e.id ≠ idIn) → update s idIn c = .ok s) := by
  rcases hval with ⟨hn, ha, _⟩
  have hchar := update_characterization s idIn c hn ha hnull hcoll hnd
  refine ⟨hchar, fun hnone => ?_⟩
  rw [hchar]
  have hmap : s.rows.map (fun e =>
      if e.id = idIn then
        (⟨if c.idSet = true then c.id.getD e.id else e.id, c.name, c.age⟩ : Entity)
      else e) = s.rows := by
    have hpt : ∀ e ∈ s.rows, (fun e =>
        if e.id = idIn then
          (⟨if c.idSet = true then c.id.getD e.id else e.id, c.name, c.age⟩ : Entity)
        else e) e = id e := by
      intro e he
      simp [hnone e he]
    rw [List.map_congr_left hpt, List.map_id]
  rw [hmap]

/-- C2 witness: a schema with `id` unset updates row 1 of the demo table in
place (name and age overwritten, id untouched); against absent id 9 the same
update succeeds and changes nothing. -/
theorem C2_witness :
    update demoStore 1 schemaTim7 = .ok ⟨demoStore.rows.map (fun e =>
      if e.id = 1 then
        ⟨if schemaTim7.idSet = true then schemaTim7.id.getD e.id else e.id,
         schemaTim7.name, schemaTim7.age⟩
      else e)⟩ ∧
    update demoStore 9 schemaTim7 = .ok demoStore ∧
    update demoStore 1 schemaTim7 =
      .ok ⟨[⟨1, "Tim", 7⟩, ⟨2, "Bob", 4⟩, ⟨3, "Tom", 5⟩]⟩ :=
  ⟨(C2_update_partial_fields demoStore 1 schemaTim7 (by decide) (by decide)
      (fun h => absurd h (by decide))
      (fun v h => absurd h (by decide))).1,
   (C2_update_partial_fields demoStore 9 schemaTim7 (by decide) (by decide)
      (fun h => absurd h (by decide))
      (fun v h => absurd h (by decide))).2 (by decide),
   by decide⟩

/-- C5 counterexample: on an empty table — where the store would assign id 1,
as the second conjunct shows — `create` with an explicitly supplied `id` of 5
persists id 5.  The supplied id is passed through, not ignored. -/
theorem C5_counterexample :
    create ⟨[]⟩ schemaWithId5 = .ok (⟨[⟨5, "Tom", 3⟩]⟩, ⟨5, "Tom", 3⟩) ∧
    create ⟨[]⟩ schemaNoId = .ok (⟨[⟨1, "Tom", 3⟩]⟩, ⟨1, "Tom", 3⟩) :=
  ⟨by decide, by decide⟩

/-- C5 amended: `create` passes the input schema's `id` through to the
entity.  The persisted id is store-assigned only when the schema's `id` is
`None`; an explicitly supplied fresh id is persisted verbatim, and a supplied
id that duplicates an existing row fails with an integrity error. -/
theorem C5_amended_create_id_passthrough (s : Store) (c : CatCreateSchema) :
    (c.id = none → create s c =
      .ok (⟨s.rows ++ [⟨nextAutoId s, c.name, c.age⟩]⟩,
        ⟨nextAutoId s, c.name, c.age⟩)) ∧
    (∀ v, c.id = some v → v ∉ s.rows.map Entity.id → create s c =
      .ok (⟨s.rows ++ [⟨v, c.name, c.age⟩]⟩, ⟨v, c.name, c.age⟩)) ∧
    (∀ v, c.id = some v → v ∈ s.rows.map Entity.id →
      create s c = .error .integrityError) :=
  ⟨fun h => create_id_none s c h,
   fun v h hfresh => create_id_some_fresh s c v h hfresh,
   fun v h hdup => create_id_some_dup s c v h hdup⟩

/-- C5 amended witness: on the demo table (ids 1, 2, 3), an unset id is
assigned 4, a supplied fresh id 9 is persisted as 9, and a supplied
duplicate id 2 is rejected. -/
theorem C5_amended_witness :
    create demoStore schemaTim7 =
      .ok (⟨demoStore.rows ++ [⟨4, "Tim", 7⟩]⟩, ⟨4, "Tim", 7⟩) ∧
    create demoStore ⟨some 9, true, "Tim", true, 7, true⟩ =
      .ok (⟨demoStore.rows ++ [⟨9, "Tim", 7⟩]⟩, ⟨9, "Tim", 7⟩) ∧
    create demoStore ⟨some 2, true, "Tim", true, 7, true⟩ =
      .error .integrityError :=
  ⟨(C5_amended_create_id_passthrough demoStore schemaTim7).1 (by decide),
   (C5_amended_create_id_passthrough demoStore
      ⟨some 9, true, "Tim", true, 7, true⟩).2.1 9 (by decide) (by decide),
   (C5_amended_create_id_passthrough demoStore
      ⟨some 2, true, "Tim", true, 7, true⟩).2.2 2 (by decide) (by decide)⟩

/-- C6 counterexample: `update` with a schema that explicitly sets `id := 2`
rewrites the primary key of the persisted record 1 — the surviving record's
id changes from 1 to 2, so ids are not immutable under every service
operation. -/
theorem C6_counterexample :
    update ⟨[⟨1, "Tom", 3⟩]⟩ 1 schemaSetsId2 = .ok ⟨[⟨2, "Tim", 7⟩]⟩ ∧
    get_by_id ⟨[⟨2, "Tim", 7⟩]⟩ 1 = none ∧
    get_by_id ⟨[⟨2, "Tim", 7⟩]⟩ 2 = some ⟨2, "Tim", 7⟩ :=
  ⟨by decide, by decide, by decide⟩

/-- C6 amended: on a pk-consistent table, ids stay unique after every
successful service operation, and the ids of surviving records are unchanged
by `create` (which only appends a new id), by `delete` (which only removes
the matched id), and by `update`/`crupdate` whenever the input schema does
not explicitly set the `id` field — an explicitly-set `id` is the one case
that rewrites a persisted primary key (see the counterexample). -/
theorem C6_amended_id_stability (s : Store) (idIn : Int) (c : CatCreateSchema)
    (hnd : idsUnique s) :
    (∀ s2 out, create s c = .ok (s2, out) →
      s2.rows.map Entity.id = s.rows.map Entity.id ++ [out.id] ∧ idsUnique s2) ∧
    (c.Valid → c.idSet = false → ∀ s2, update s idIn c = .ok s2 →
      s2.rows.map Entity.id = s.rows.map Entity.id ∧ idsUnique s2) ∧
    (c.Valid → c.idSet = false → ∀ s2, crupdate s idIn c = .ok s2 →
      (s2.rows.map Entity.id = s.rows.map Entity.id ∨
        s2.rows.map Entity.id = s.rows.map Entity.id ++ [nextAutoId s]) ∧
      idsUnique s2) ∧
    (∀ s2 f, delete s idIn = .ok (s2, f) →
      s2.rows.map Entity.id = (s.rows.map Entity.id).filter (fun x => !(x == idIn)) ∧
      idsUnique s2) := by
  have hcreate : ∀ s2 out, create s c = .ok (s2, out) →
      s2.rows.map Entity.id = s.rows.map Entity.id ++ [out.id] ∧ idsUnique s2 := by
    intro s2 out h
    rcases create_ok_ids s c s2 out h with ⟨hids, hfresh⟩
    refine ⟨hids, ?_⟩
    unfold idsUnique
    rw [hids]
    have hnd2 : (s.rows.map Entity.id).Nodup := hnd
    simp [List.nodup_append, hnd2, hfresh]
  have hupdate : c.Valid → c.idSet = false → ∀ s2, update s idIn c = .ok s2 →
      s2.rows.map Entity.id = s.rows.map Entity.id ∧ idsUnique s2 := by
    intro hval hidset s2 h
    rcases hval with ⟨hn, ha, _⟩
    have hids := update_ok_ids s idIn c hn ha hidset hnd s2 h
    exact ⟨hids, by unfold idsUnique; rw [hids]; exact hnd⟩
  refine ⟨hcreate, hupdate, ?_, ?_⟩
  · intro hval hidset s2 h
    unfold crupdate at h
    rcases hg : get_by_id s idIn with _ | f
    · rw [hg] at h
      have hidnone : c.id = none := hval.2.2 hidset
      have hcn := create_id_none s c hidnone
      rw [hcn] at h
      simp only [Except.map] at h
      injection h with h
      subst h
      rcases hcreate _ _ hcn with ⟨hids, hnd2⟩
      exact ⟨Or.inr (by rw [hids]), hnd2⟩
    · rw [hg] at h
      rcases hupdate hval hidset s2 h with ⟨hids, hnd2⟩
      exact ⟨Or.inl hids, hnd2⟩
  · intro s2 f h
    unfold delete at h
    rcases hfind : s.rows.find? (fun e => e.id == idIn) with _ | e
    · rw [hfind] at h; exact absurd h (by simp)
    · rw [hfind] at h
      injection h with h
      injection h with h1 h2
      subst h1
      constructor
      · show (s.rows.filter ((fun x : Int => !(x == idIn)) ∘ Entity.id)).map Entity.id = _
        exact (List.filter_map Entity.id s.rows).symm
      · unfold idsUnique
        show ((s.rows.filter (fun r => !(r.id == idIn))).map Entity.id).Nodup
        exact List.Nodup.sublist ((List.filter_sublist s.rows).map Entity.id) hnd

theorem bfq_all_columns (kvs : List (String × PyVal))
    (hcols : ∀ kv ∈ kvs, kv.1 = "id" ∨ kv.1 = "name" ∨ kv.1 = "age") :
    ∃ q, build_filter_query kvs = .ok q ∧
      ∀ e : Entity, q.all (evalFilter e) =
        kvs.all (fun kv => entityFieldEq e kv.1 kv.2) := by
  induction kvs with
  | nil => exact ⟨[], rfl, fun e => rfl⟩
  | cons kv rest ih =>
    rcases ih (fun x hx => hcols x (List.mem_cons_of_mem kv hx)) with ⟨q, hq, hev⟩
    rcases hcols kv (List.mem_cons_self _ _) with hk | hk | hk
    · have hg : getattrCat kv.1 = some (.column .fid) := by rw [hk]; rfl
      refine ⟨QFilter.colEq .fid kv.2 :: q, ?_, ?_⟩
      · simp [build_filter_query, hg, hq, Except.map]
      · intro e
        simp only [List.all_cons, hev e]
        congr 1
        rcases kv with ⟨k, v⟩
        simp only at hk
        subst hk
        cases v with
        | vInt i => simp [evalFilter, entityFieldEq]
        | vStr str => simp [evalFilter, entityFieldEq]
    · have hg : getattrCat kv.1 = some (.column .fname) := by rw [hk]; rfl
      refine ⟨QFilter.colEq .fname kv.2 :: q, ?_, ?_⟩
      · simp [build_filter_query, hg, hq, Except.map]
      · intro e
        simp only [List.all_cons, hev e]
        congr 1
        rcases kv with ⟨k, v⟩
        simp only at hk
        subst hk
        cases v with
        | vInt i => simp [evalFilter, entityFieldEq]
        | vStr str => simp [evalFilter, entityFieldEq]
    · have hg : getattrCat kv.1 = some (.column .fage) := by rw [hk]; rfl
      refine ⟨QFilter.colEq .fage kv.2 :: q, ?_, ?_⟩
      · simp [build_filter_query, hg, hq, Except.map]
      · intro e
        simp only [List.all_cons, hev e]
        congr 1
        rcases kv with ⟨k, v⟩
        simp only at hk
        subst hk
        cases v with
        | vInt i => simp [evalFilter, entityFieldEq]
        | vStr str => simp [evalFilter, entityFieldEq]

theorem bfq_ok_of_known (kvs : List (String × PyVal))
    (h : ∀ kv ∈ kvs, (getattrCat kv.1).isSome = true) :
    ∃ q, build_filter_query kvs = .ok q := by
  induction kvs with
  | nil => exact ⟨[], rfl⟩
  | cons kv rest ih =>
    rcases ih (fun x hx => h x (List.mem_cons_of_mem kv hx)) with ⟨q, hq⟩
    rcases hg : getattrCat kv.1 with _ | a
    · have hkv := h kv (List.mem_cons_self _ _)
      rw [hg] at hkv
      exact absurd hkv (by simp)
    · cases a with
      | column f =>
        exact ⟨QFilter.colEq f kv.2 :: q, by simp [build_filter_query, hg, hq, Except.map]⟩
      | nonColumn =>
        exact ⟨QFilter.falseClause :: q, by simp [build_filter_query, hg, hq, Except.map]⟩

theorem bfq_err_of_unknown (kvs : List (String × PyVal))
    (h : ∃ kv ∈ kvs, getattrCat kv.1 = none) :
    build_filter_query kvs = .error .attributeError := by
  induction kvs with
  | nil => rcases h with ⟨kv, hkv, _⟩; exact absurd hkv (List.not_mem_nil kv)
  | cons kv rest ih =>
    rcases hg : getattrCat kv.1 with _ | a
    · simp [build_filter_query, hg]
    · rcases h with ⟨kv0, hmem, hnone⟩
      rcases List.mem_cons.mp hmem with h0 | h0
      · rw [h0] at hnone
        rw [hnone] at hg
        exact absurd hg (by simp)
      · have herr := ih ⟨kv0, h0, hnone⟩
        cases a with
        | column f => simp [build_filter_query, hg, herr, Except.map]
        | nonColumn => simp [build_filter_query, hg, herr, Except.map]

/-- C7: for filter pairs whose keys are all column fields of the entity,
`find_all_by_filters` returns exactly the persisted rows matching every
(field, value) pair conjunctively, mapped to full schemas — in particular,
filtering on `name = "Tom"` returns exactly the rows whose name is Tom. -/
theorem C7_find_all_by_filters_conjunctive (s : Store)
    (kvs : List (String × PyVal))
    (hcols : ∀ kv ∈ kvs, kv.1 = "id" ∨ kv.1 = "name" ∨ kv.1 = "age") :
    find_all_by_filters s kvs = .ok ((s.rows.filter (fun e =>
      kvs.all (fun kv => entityFieldEq e kv.1 kv.2))).map fromEntity) := by
  rcases bfq_all_columns kvs hcols with ⟨q, hq, hev⟩
  unfold find_all_by_filters
  rw [hq]
  simp only [Except.map]
  unfold from_models runSelect
  rw [List.filter_congr (fun e _ => hev e)]

/-- C7 witness: on the demo table, filtering on name "Tom" returns exactly
the two rows named Tom, as full schemas. -/
theorem C7_witness :
    find_all_by_filters demoStore [("name", PyVal.vStr "Tom")] =
      .ok ((demoStore.rows.filter (fun e =>
        [("name", PyVal.vStr "Tom")].all
          (fun kv => entityFieldEq e kv.1 kv.2))).map fromEntity) ∧
    find_all_by_filters demoStore [("name", PyVal.vStr "Tom")] =
      .ok [⟨1, "Tom", 3⟩, ⟨3, "Tom", 5⟩] :=
  ⟨C7_find_all_by_filters_conjunctive demoStore
      [("name", PyVal.vStr "Tom")] (by decide),
   by decide⟩

/-- C8: `build_filter_query` (and hence `find_all_by_filters`) fails with an
attribute-error condition exactly when some requested name is not an
attribute of the entity class; when every requested name resolves, the query
is built (and executed) without error. -/
theorem C8_unknown_field_attribute_error (s : Store)
    (kvs : List (String × PyVal)) :
    ((∀ kv ∈ kvs, (getattrCat kv.1).isSome = true) →
      (∃ q, build_filter_query kvs = .ok q) ∧
      (∃ l, find_all_by_filters s kvs = .ok l)) ∧
    ((∃ kv ∈ kvs, getattrCat kv.1 = none) →
      build_filter_query kvs = .error .attributeError ∧
      find_all_by_filters s kvs = .error .attributeError) := by
  constructor
  · intro h
    rcases bfq_ok_of_known kvs h with ⟨q, hq⟩
    refine ⟨⟨q, hq⟩, ⟨from_models (runSelect s q), ?_⟩⟩
    unfold find_all_by_filters
    rw [hq]
    rfl
  · intro h
    have herr := bfq_err_of_unknown kvs h
    refine ⟨herr, ?_⟩
    unfold find_all_by_filters
    rw [herr]
    rfl

/-- C8 witness: a filter on the column `name` builds and runs without error;
a filter on the unknown name `color` fails with the attribute error in both
the builder and the executing wrapper. -/
theorem C8_witness :
    ((∃ q, build_filter_query [("name", PyVal.vStr "Tom")] = .ok q) ∧
      (∃ l, find_all_by_filters demoStore [("name", PyVal.vStr "Tom")] = .ok l)) ∧
    (build_filter_query [("color", PyVal.vStr "red")] = .error .attributeError ∧
      find_all_by_filters demoStore [("color", PyVal.vStr "red")] =
        .error .attributeError) :=
  ⟨(C8_unknown_field_attribute_error demoStore
      [("name", PyVal.vStr "Tom")]).1 (by decide),
   (C8_unknown_field_attribute_error demoStore
      [("color", PyVal.vStr "red")]).2
     ⟨("color", PyVal.vStr "red"), by decide, by decide⟩⟩

theorem pythonSlice_nonneg {α : Type} (xs : List α) (a b : Int)
    (ha : 0 ≤ a) (hb : 0 ≤ b) :
    pythonSlice xs a b = (xs.take b.toNat).drop a.toNat := by
  simp only [pythonSlice]
  rw [if_neg (by omega), if_neg (by omega)]
  have h1 : xs.take (min b (xs.length : Int)).toNat = xs.take b.toNat := by
    rcases le_total b (xs.length : Int) with h | h
    · rw [min_eq_left h]
    · rw [min_eq_right h]
      have hx : ((xs.length : Int)).toNat = xs.length := by omega
      rw [hx, List.take_length, List.take_of_length_le (by omega)]
  rw [h1]
  rcases le_total a (xs.length : Int) with h | h
  · rw [min_eq_left h]
  · rw [min_eq_right h]
    have hlen1 : (xs.take b.toNat).length ≤ ((xs.length : Int)).toNat := by
      rw [List.length_take]; omega
    rw [List.drop_eq_nil_of_le hlen1,
      List.drop_eq_nil_of_le (le_trans (by rw [List.length_take]; omega) (by omega : xs.length ≤ a.toNat))]

theorem drop_length_sub_one {α : Type} : ∀ (xs : List α),
    xs.drop (xs.length - 1) = xs.getLast?.toList := by
  intro xs
  induction xs with
  | nil => rfl
  | cons x t ih =>
    cases t with
    | nil => rfl
    | cons y t2 =>
      show (y :: t2).drop ((y :: t2).length - 1) = _
      rw [ih, List.getLast?_cons_cons]

/-- C10: the list endpoint applies no validation to `skip` and `limit`: it
returns `get_all` sliced as `cats[skip : skip + limit]` under Python slice
semantics — for non-negative arguments that is drop-skip-then-take-limit,
while a negative `skip` of -1 counts from the end of the list, yielding at
most the last element (never an error, and never an offset from the front). -/
theorem C10_get_all_cats_slice_semantics (s : Store) :
    (∀ skip limit : Int, 0 ≤ skip → 0 ≤ limit →
      get_all_cats s skip limit =
        ((get_all s).drop skip.toNat).take limit.toNat) ∧
    (∀ limit : Int, 0 < limit →
      get_all_cats s (-1) limit = [] ∨
      get_all_cats s (-1) limit = (get_all s).getLast?.toList) := by
  constructor
  · intro skip limit hs hl
    unfold get_all_cats
    rw [pythonSlice_nonneg _ _ _ hs (by omega), List.drop_take]
    congr 1
    omega
  · intro limit hl
    unfold get_all_cats
    simp only [pythonSlice]
    rw [if_pos (by omega : (-1 : Int) < 0), if_neg (by omega : ¬(-1 + limit < 0))]
    rcases Nat.eq_zero_or_pos (get_all s).length with hn | hn
    · left
      have hnil : get_all s = [] := List.length_eq_zero.mp hn
      simp [hnil]
    · have hmax : ((max (-1 + ((get_all s).length : Int)) 0)).toNat =
          (get_all s).length - 1 := by omega
      rw [hmax]
      rcases le_or_lt ((get_all s).length : Int) (-1 + limit) with h | h
      · right
        have hmin : (min (-1 + limit) ((get_all s).length : Int)).toNat =
            (get_all s).length := by omega
        rw [hmin, List.take_length]
        exact drop_length_sub_one _
      · left
        apply List.drop_eq_nil_of_le
        rw [List.length_take]
        omega

/-- C10 witness: on the three-row demo table, `skip = 1, limit = 2` drops one
and takes two, and `skip = -1` with positive limit yields at most the last
element — here exactly the last row. -/
theorem C10_witness :
    get_all_cats demoStore 1 2 =
      ((get_all demoStore).drop (1 : Int).toNat).take (2 : Int).toNat ∧
    (get_all_cats demoStore (-1) 5 = [] ∨
      get_all_cats demoStore (-1) 5 = (get_all demoStore).getLast?.toList) ∧
    get_all_cats demoStore (-1) 5 = [⟨3, "Tom", 5⟩] :=
  ⟨(C10_get_all_cats_slice_semantics demoStore).1 1 2 (by decide) (by decide),
   (C10_get_all_cats_slice_semantics demoStore).2 5 (by decide),
   by decide⟩

/-- C6 amended witness: the four conjuncts instantiated on the demo table
with the id-unset schema `schemaTim7`: create appends id 4, update on id 1
preserves the id list, crupdate on absent id 9 appends id 4, delete of id 2
removes exactly id 2; uniqueness holds throughout. -/
theorem C6_amended_witness :
    ((⟨demoStore.rows ++ [⟨4, "Tim", 7⟩]⟩ : Store).rows.map Entity.id =
      demoStore.rows.map Entity.id ++ [(4 : Int)] ∧
      idsUnique ⟨demoStore.rows ++ [⟨4, "Tim", 7⟩]⟩) ∧
    ((⟨[⟨1, "Tim", 7⟩, ⟨2, "Bob", 4⟩, ⟨3, "Tom", 5⟩]⟩ : Store).rows.map Entity.id =
      demoStore.rows.map Entity.id ∧
      idsUnique ⟨[⟨1, "Tim", 7⟩, ⟨2, "Bob", 4⟩, ⟨3, "Tom", 5⟩]⟩) ∧
    ((⟨demoStore.rows ++ [⟨4, "Tim", 7⟩]⟩ : Store).rows.map Entity.id =
        demoStore.rows.map Entity.id ∨
      (⟨demoStore.rows ++ [⟨4, "Tim", 7⟩]⟩ : Store).rows.map Entity.id =
        demoStore.rows.map Entity.id ++ [nextAutoId demoStore]) ∧
    ((⟨[⟨1, "Tom", 3⟩, ⟨3, "Tom", 5⟩]⟩ : Store).rows.map Entity.id =
      (demoStore.rows.map Entity.id).filter (fun x => !(x == (2 : Int))) ∧
      idsUnique ⟨[⟨1, "Tom", 3⟩, ⟨3, "Tom", 5⟩]⟩) :=
  ⟨(C6_amended_id_stability demoStore 1 schemaTim7 (by decide)).1
      ⟨demoStore.rows ++ [⟨4, "Tim", 7⟩]⟩ ⟨4, "Tim", 7⟩ (by decide),
   (C6_amended_id_stability demoStore 1 schemaTim7 (by decide)).2.1
      (by decide) (by decide) ⟨[⟨1, "Tim", 7⟩, ⟨2, "Bob", 4⟩, ⟨3, "Tom", 5⟩]⟩ (by decide),
   ((C6_amended_id_stability demoStore 9 schemaTim7 (by decide)).2.2.1
      (by decide) (by decide) ⟨demoStore.rows ++ [⟨4, "Tim", 7⟩]⟩ (by decide)).1,
   (C6_amended_id_stability demoStore 2 schemaTim7 (by decide)).2.2.2
      ⟨[⟨1, "Tom", 3⟩, ⟨3, "Tom", 5⟩]⟩ ⟨2, "Bob", 4⟩ (by decide)⟩

end Catapult
